import Mathlib

/-!
The class `entt::basic_hashed_string`.

A shallow embedding of `src/entt/core/hashed_string.hpp` together with the
properties of the FNV-1a identifier type that are checked against it.

Modelling conventions

* `id_type` comes from `fwd.hpp`/`config.h`; the header only works for the two
  types that have a `fnv1a_traits` specialisation, so the width is a parameter
  `IdType` ranging over `u32` and `u64`.
* Values of `id_type` are natural numbers; every arithmetic result is reduced
  modulo `2 ^ bits` where the C++ unsigned arithmetic wraps.
* A character is the integer value it holds (`Int`), so that signed and
  unsigned character types are both covered.  `static_cast<hs_traits::type>`
  is the conversion to an unsigned type: reduction modulo `2 ^ bits`.
* A pointer is either null or designates an element of a character buffer.
  Reading outside the buffer is undefined behaviour and is reported as `none`.
-/

namespace entt

/-- The two unsigned integer types for which `internal::fnv1a_traits` is
specialised; `id_type` is one of them. -/
inductive IdType where
  | u32
  | u64
deriving DecidableEq, Repr

namespace internal

/-- The members of a `fnv1a_traits` specialisation: the number of value bits of
`type`, and the constants `offset` and `prime`. -/
structure fnv1a_traits where
  bits : Nat
  offset : Nat
  prime : Nat
deriving DecidableEq, Repr

/-- The specialisations `fnv1a_traits<std::uint32_t>` and
`fnv1a_traits<std::uint64_t>`. -/
def fnv1a_traits.of : IdType → fnv1a_traits
  | .u32 => { bits := 32, offset := 2166136261, prime := 16777619 }
  | .u64 => { bits := 64, offset := 14695981039346656037, prime := 1099511628211 }

end internal

open internal

/-- A value of type `const Char *`: the null pointer, or a pointer to element
`pos` of the character buffer `buf`. -/
inductive Ptr where
  | null
  | elem (buf : List Int) (pos : Nat)
deriving DecidableEq, Repr

/-- The characters that can be read through successive `*(curr++)`, starting at
the pointee and ending with the last element of the buffer. -/
def Ptr.cells : Ptr → List Int
  | .null => []
  | .elem buf pos => buf.drop pos

/-- The conversion `static_cast<hs_traits::type>(c)` of a character value to
the unsigned hash type. -/
def to_hash_type (t : fnv1a_traits) (c : Int) : Nat :=
  (c % (2 : Int) ^ t.bits).toNat

/-- One execution of the loop body
`result.hash = (result.hash ^ static_cast<hs_traits::type>(c)) * hs_traits::prime`. -/
def mix (t : fnv1a_traits) (hash : Nat) (c : Int) : Nat :=
  ((hash ^^^ to_hash_type t c) * t.prime) % 2 ^ t.bits

/-- The struct `helper_result`. -/
structure helper_result where
  hash : Nat
  size : Nat
deriving DecidableEq, Repr

/-- The loop `while(*curr != 0) { ...; ++result.size; }` of `helper(const Char *)`,
run on the characters readable from `curr`. -/
def helper_loop (t : fnv1a_traits) : List Int → helper_result → Option helper_result
  | [], _ => none
  | c :: rest, result =>
    if c ≠ 0 then
      helper_loop t rest { hash := mix t result.hash c, size := result.size + 1 }
    else
      some result

/-- The overload `helper(const Char *curr)`. -/
def helper (t : fnv1a_traits) (curr : Ptr) : Option helper_result :=
  helper_loop t curr.cells { hash := t.offset, size := 0 }

/-- The loop `while(size-- > 0) { ... }` of `helper(Char const *, std::size_t)`,
run on the characters readable from `curr`. -/
def helper_sized_loop (t : fnv1a_traits) : List Int → Nat → helper_result → Option helper_result
  | _, 0, result => some result
  | [], _ + 1, _ => none
  | c :: rest, size + 1, result =>
    helper_sized_loop t rest size { hash := mix t result.hash c, size := result.size }

/-- The overload `helper(Char const *curr, std::size_t size)`. -/
def helper_sized (t : fnv1a_traits) (curr : Ptr) (size : Nat) : Option helper_result :=
  helper_sized_loop t curr.cells size { hash := t.offset, size := size }

/-- The class `basic_hashed_string<Char>`: its three data members with their
default member initialisers `str = {}`, `hash{}` and `len{}`. -/
structure basic_hashed_string where
  str : Ptr := Ptr.null
  hash : Nat := 0
  len : Nat := 0
deriving DecidableEq, Repr

namespace basic_hashed_string

/-- The static `value(const value_type *str, std::size_t size)`. -/
def value_sized (t : fnv1a_traits) (str : Ptr) (size : Nat) : Option Nat :=
  (helper_sized t str size).map (fun r => r.hash)

/-- The static `value(const value_type (&str)[N])`: `str` is the whole array, so
`N` is its number of elements (at least one in C++). -/
def value_array (t : fnv1a_traits) (str : List Int) : Option Nat :=
  (helper_sized t (Ptr.elem str 0) (str.length - 1)).map (fun r => r.hash)

/-- The static `value(const_wrapper wrapper)`. -/
def value_wrapper (t : fnv1a_traits) (wrapper : Ptr) : Option Nat :=
  (helper t wrapper).map (fun r => r.hash)

/-- The defaulted constructor `basic_hashed_string()`. -/
def ctor_default : basic_hashed_string := {}

/-- The private constructor taking a pointer and a `helper_result`. -/
def ctor_result (ptr : Ptr) (result : helper_result) : basic_hashed_string :=
  { str := ptr, hash := result.hash, len := result.size }

/-- The constructor `basic_hashed_string(value_type const *ptr, std::size_t size)`. -/
def ctor_sized (t : fnv1a_traits) (ptr : Ptr) (size : Nat) : Option basic_hashed_string :=
  (helper_sized t ptr size).map (ctor_result ptr)

/-- The constructor `basic_hashed_string(const value_type (&curr)[N])`. -/
def ctor_array (t : fnv1a_traits) (curr : List Int) : Option basic_hashed_string :=
  (helper_sized t (Ptr.elem curr 0) (curr.length - 1)).map (ctor_result (Ptr.elem curr 0))

/-- The explicit constructor `basic_hashed_string(const_wrapper wrapper)`. -/
def ctor_wrapper (t : fnv1a_traits) (wrapper : Ptr) : Option basic_hashed_string :=
  (helper t wrapper).map (ctor_result wrapper)

/-- The accessor `data()`. -/
def data (self : basic_hashed_string) : Ptr := self.str

/-- The accessor `value()`. -/
def value (self : basic_hashed_string) : Nat := self.hash

/-- The accessor `size()`. -/
def size (self : basic_hashed_string) : Nat := self.len

end basic_hashed_string

/-- The function `operator==`. -/
def op_eq (lhs rhs : basic_hashed_string) : Bool := lhs.value == rhs.value

/-- The function `operator!=`. -/
def op_ne (lhs rhs : basic_hashed_string) : Bool := !(op_eq lhs rhs)

/-- The function `operator<`. -/
def op_lt (lhs rhs : basic_hashed_string) : Bool := decide (lhs.value < rhs.value)

/-- The function `operator<=`. -/
def op_le (lhs rhs : basic_hashed_string) : Bool := !(op_lt rhs lhs)

/-- The function `operator>`. -/
def op_gt (lhs rhs : basic_hashed_string) : Bool := op_lt rhs lhs

/-- The function `operator>=`. -/
def op_ge (lhs rhs : basic_hashed_string) : Bool := !(op_lt lhs rhs)

/-- The FNV-1a digest as the specification words it: start from `offset`; for
each character in order, convert it to the unsigned type, XOR it into the
running hash and multiply by `prime` with wraparound. -/
def fnv1a_digest (t : fnv1a_traits) (s : List Int) : Nat :=
  s.foldl (fun h c => ((h ^^^ (c % (2 : Int) ^ t.bits).toNat) * t.prime) % 2 ^ t.bits) t.offset

namespace basic_hashed_string

/-- The conversion function `operator hash_type()`, which returns `value()`. -/
def operator_hash_type (self : basic_hashed_string) : Nat := self.value

/-- The conversion function `operator const value_type *()`, which returns
`data()`. -/
def operator_pointer (self : basic_hashed_string) : Ptr := self.data

end basic_hashed_string

namespace literals

/-- The literal operator `operator"" _hs(const char *str, std::size_t size)`. -/
def op_hs (t : fnv1a_traits) (str : Ptr) (size : Nat) : Option basic_hashed_string :=
  basic_hashed_string.ctor_sized t str size

/-- The literal operator `operator"" _hs(const wchar_t *str, std::size_t size)`. -/
def op_hs_wide (t : fnv1a_traits) (str : Ptr) (size : Nat) : Option basic_hashed_string :=
  basic_hashed_string.ctor_sized t str size

/-- The literal operator `operator"" _hws(const wchar_t *str, std::size_t size)`. -/
def op_hws (t : fnv1a_traits) (str : Ptr) (size : Nat) : Option basic_hashed_string :=
  basic_hashed_string.ctor_sized t str size

end literals

/-- The array object of a string literal whose characters are `chars`: the
language appends one terminating zero element, so the array has
`chars.length + 1` elements. -/
def string_literal (chars : List Int) : List Int := chars ++ [0]

/-- The evaluation of a user-defined string literal: the language calls the
literal operator with a pointer to the first element of the array of the
literal and with the number of its characters, terminator excluded. -/
def user_defined_literal (op : Ptr → Nat → Option basic_hashed_string) (chars : List Int) :
    Option basic_hashed_string :=
  op (Ptr.elem (string_literal chars) 0) chars.length

/-- An integral character type `Char`: its number of bits and its signedness.
`char` has 8 bits and is signed or unsigned, `wchar_t` has 16 or 32 bits. -/
structure CharType where
  bits : Nat
  signed : Bool
deriving DecidableEq, Repr

/-- The values that an object of the character type can hold. -/
def CharType.holds (T : CharType) (c : Int) : Prop :=
  if T.signed then -(2 : Int) ^ (T.bits - 1) ≤ c ∧ c < (2 : Int) ^ (T.bits - 1)
  else 0 ≤ c ∧ c < (2 : Int) ^ T.bits

instance (T : CharType) (c : Int) : Decidable (T.holds c) := by
  unfold CharType.holds
  exact inferInstance

/-- The octet that stores a narrow character: its value modulo 256. -/
def byte_of (c : Int) : Nat := (c % 256).toNat

/-- The standard byte-wise FNV-1a digest: from `offset`, for every octet,
XOR the octet (a number from 0 to 255) into the hash, then multiply by `prime`
modulo `2 ^ bits`. -/
def std_fnv1a (t : fnv1a_traits) (bytes : List Nat) : Nat :=
  bytes.foldl (fun h b => ((h ^^^ b) * t.prime) % 2 ^ t.bits) t.offset

/-! ## Auxiliary facts about the two loops -/

theorem mix_eq_step (t : fnv1a_traits) (h : Nat) (c : Int) :
    mix t h c = ((h ^^^ (c % (2 : Int) ^ t.bits).toNat) * t.prime) % 2 ^ t.bits := rfl

theorem fnv1a_digest_eq_foldl (t : fnv1a_traits) (s : List Int) :
    fnv1a_digest t s = s.foldl (mix t) t.offset := rfl

theorem helper_sized_loop_eq (t : fnv1a_traits) (cells : List Int) (n : Nat) (r : helper_result) :
    helper_sized_loop t cells n r =
      if n ≤ cells.length then
        some { hash := (cells.take n).foldl (mix t) r.hash, size := r.size }
      else none := by
  induction cells generalizing n r with
  | nil =>
    cases n with
    | zero => simp [helper_sized_loop]
    | succ k => simp [helper_sized_loop]
  | cons c rest ih =>
    cases n with
    | zero => simp [helper_sized_loop]
    | succ k => simp [helper_sized_loop, ih]

theorem helper_loop_eq (t : fnv1a_traits) (cells : List Int) (r : helper_result) :
    helper_loop t cells r =
      if (0 : Int) ∈ cells then
        some { hash := (cells.takeWhile (fun c => decide (c ≠ 0))).foldl (mix t) r.hash,
               size := r.size + (cells.takeWhile (fun c => decide (c ≠ 0))).length }
      else none := by
  induction cells generalizing r with
  | nil => simp [helper_loop]
  | cons c rest ih =>
    by_cases hc : c = 0
    · subst hc
      simp [helper_loop]
    · have hc2 : ¬ (0 : Int) = c := fun h => hc h.symm
      simp [helper_loop, hc, hc2, ih, List.takeWhile_cons, Nat.add_assoc, Nat.add_comm 1]

theorem takeWhile_nonzero_append (s rest : List Int) (hs : ∀ c ∈ s, c ≠ 0) :
    (s ++ 0 :: rest).takeWhile (fun c => decide (c ≠ 0)) = s := by
  induction s with
  | nil => simp
  | cons c tl ih =>
    have hc : c ≠ 0 := hs c (by simp)
    have htl : ∀ d ∈ tl, d ≠ 0 := fun d hd => hs d (by simp [hd])
    have ih2 := ih htl
    simp only [List.cons_append, List.takeWhile_cons, hc, ne_eq, not_false_eq_true, decide_True,
      if_true, ih2]

theorem helper_sized_eq (t : fnv1a_traits) (curr : Ptr) (n : Nat) :
    helper_sized t curr n =
      if n ≤ curr.cells.length then
        some { hash := fnv1a_digest t (curr.cells.take n), size := n }
      else none := by
  simp [helper_sized, helper_sized_loop_eq, fnv1a_digest_eq_foldl]

theorem helper_eq (t : fnv1a_traits) (curr : Ptr) :
    helper t curr =
      if (0 : Int) ∈ curr.cells then
        some { hash := fnv1a_digest t (curr.cells.takeWhile (fun c => decide (c ≠ 0))),
               size := (curr.cells.takeWhile (fun c => decide (c ≠ 0))).length }
      else none := by
  simp [helper, helper_loop_eq, fnv1a_digest_eq_foldl]

theorem takeWhile_eq_take_length (cells : List Int) :
    cells.takeWhile (fun c => decide (c ≠ 0)) =
      cells.take (cells.takeWhile (fun c => decide (c ≠ 0))).length := by
  induction cells with
  | nil => simp
  | cons c rest ih =>
    by_cases hc : c = 0
    · simp [List.takeWhile_cons, hc]
    · simp only [List.takeWhile_cons, hc, ne_eq, not_false_eq_true, decide_True, if_true,
        List.length_cons, List.take_succ_cons]
      rw [← ih]

theorem takeWhile_length_le (cells : List Int) :
    (cells.takeWhile (fun c => decide (c ≠ 0))).length ≤ cells.length :=
  (List.takeWhile_sublist _).length_le

theorem cells_elem_append (pre l : List Int) :
    (Ptr.elem (pre ++ l) pre.length).cells = l := by
  simp [Ptr.cells]

theorem cells_elem_zero (buf : List Int) : (Ptr.elem buf 0).cells = buf := by
  simp [Ptr.cells]

theorem helper_sized_append (t : fnv1a_traits) (pre l r : List Int) :
    helper_sized t (Ptr.elem (pre ++ (l ++ r)) pre.length) l.length
      = some { hash := fnv1a_digest t l, size := l.length } := by
  simp [helper_sized_eq, cells_elem_append]

theorem helper_terminated (t : fnv1a_traits) (pre s rest : List Int) (hs : ∀ c ∈ s, c ≠ 0) :
    helper t (Ptr.elem (pre ++ (s ++ 0 :: rest)) pre.length)
      = some { hash := fnv1a_digest t s, size := s.length } := by
  simp only [helper_eq, cells_elem_append, takeWhile_nonzero_append s rest hs]
  simp

theorem helper_of_cells (t : fnv1a_traits) (curr : Ptr) (s rest : List Int)
    (hcells : curr.cells = s ++ 0 :: rest) (hs : ∀ c ∈ s, c ≠ 0) :
    helper t curr = some { hash := fnv1a_digest t s, size := s.length } := by
  simp only [helper_eq, hcells, takeWhile_nonzero_append s rest hs]
  simp

/-! ## Arithmetic of one round -/

theorem traits_coprime (w : IdType) :
    Nat.gcd (2 ^ (fnv1a_traits.of w).bits) (fnv1a_traits.of w).prime = 1 := by
  cases w <;> rfl

theorem traits_offset_lt (w : IdType) :
    (fnv1a_traits.of w).offset < 2 ^ (fnv1a_traits.of w).bits := by
  cases w <;> decide

theorem to_hash_type_lt (t : fnv1a_traits) (c : Int) : to_hash_type t c < 2 ^ t.bits := by
  have hpos : (0 : Int) < (2 : Int) ^ t.bits := by positivity
  have h1 : c % (2 : Int) ^ t.bits < (2 : Int) ^ t.bits := Int.emod_lt_of_pos c hpos
  have h2 : 0 ≤ c % (2 : Int) ^ t.bits := Int.emod_nonneg c (ne_of_gt hpos)
  have h3 : ((to_hash_type t c : Nat) : Int) = c % (2 : Int) ^ t.bits := by
    simp only [to_hash_type]
    exact Int.toNat_of_nonneg h2
  have h4 : ((to_hash_type t c : Nat) : Int) < ((2 ^ t.bits : Nat) : Int) := by
    rw [h3]
    push_cast
    exact h1
  exact Int.ofNat_lt.mp h4

theorem mix_lt (t : fnv1a_traits) (h : Nat) (c : Int) : mix t h c < 2 ^ t.bits := by
  simp only [mix]
  exact Nat.mod_lt _ (by positivity)

theorem foldl_mix_lt (t : fnv1a_traits) (l : List Int) (h : Nat) (hh : h < 2 ^ t.bits) :
    l.foldl (mix t) h < 2 ^ t.bits := by
  induction l generalizing h with
  | nil => simpa using hh
  | cons c rest ih => exact ih (mix t h c) (mix_lt t h c)

theorem mul_prime_cancel (w : IdType) (a b : Nat)
    (ha : a < 2 ^ (fnv1a_traits.of w).bits) (hb : b < 2 ^ (fnv1a_traits.of w).bits)
    (h : (a * (fnv1a_traits.of w).prime) % 2 ^ (fnv1a_traits.of w).bits
        = (b * (fnv1a_traits.of w).prime) % 2 ^ (fnv1a_traits.of w).bits) : a = b := by
  have hmod : a ≡ b [MOD 2 ^ (fnv1a_traits.of w).bits] :=
    Nat.ModEq.cancel_right_of_coprime (traits_coprime w) h
  have h2 : a % 2 ^ (fnv1a_traits.of w).bits = b % 2 ^ (fnv1a_traits.of w).bits := hmod
  rwa [Nat.mod_eq_of_lt ha, Nat.mod_eq_of_lt hb] at h2

theorem round_inj_operand (w : IdType) (h e1 e2 : Nat)
    (hh : h < 2 ^ (fnv1a_traits.of w).bits)
    (h1 : e1 < 2 ^ (fnv1a_traits.of w).bits) (h2 : e2 < 2 ^ (fnv1a_traits.of w).bits)
    (heq : ((h ^^^ e1) * (fnv1a_traits.of w).prime) % 2 ^ (fnv1a_traits.of w).bits
        = ((h ^^^ e2) * (fnv1a_traits.of w).prime) % 2 ^ (fnv1a_traits.of w).bits) :
    e1 = e2 :=
  Nat.xor_right_injective
    (mul_prime_cancel w _ _ (Nat.xor_lt_two_pow hh h1) (Nat.xor_lt_two_pow hh h2) heq)

theorem mix_inj_state (w : IdType) (c : Int) (h1 h2 : Nat)
    (hh1 : h1 < 2 ^ (fnv1a_traits.of w).bits) (hh2 : h2 < 2 ^ (fnv1a_traits.of w).bits)
    (heq : mix (fnv1a_traits.of w) h1 c = mix (fnv1a_traits.of w) h2 c) : h1 = h2 :=
  Nat.xor_left_injective
    (mul_prime_cancel w _ _
      (Nat.xor_lt_two_pow hh1 (to_hash_type_lt _ c))
      (Nat.xor_lt_two_pow hh2 (to_hash_type_lt _ c)) heq)

theorem mix_surj_state (w : IdType) (c : Int) (y : Nat)
    (hy : y < 2 ^ (fnv1a_traits.of w).bits) :
    ∃ h, h < 2 ^ (fnv1a_traits.of w).bits ∧ mix (fnv1a_traits.of w) h c = y := by
  obtain ⟨q, hq⟩ : ∃ q, (q * (fnv1a_traits.of w).prime) % 2 ^ (fnv1a_traits.of w).bits = 1 := by
    cases w
    · exact ⟨899433627, by rfl⟩
    · exact ⟨14886173955864302971, by rfl⟩
  refine ⟨((y * q) % 2 ^ (fnv1a_traits.of w).bits) ^^^ to_hash_type (fnv1a_traits.of w) c,
    Nat.xor_lt_two_pow (Nat.mod_lt _ (by positivity)) (to_hash_type_lt _ c), ?_⟩
  simp only [mix, Nat.xor_cancel_right, Nat.mod_mul_mod]
  rw [Nat.mul_assoc, Nat.mul_mod, hq, Nat.mul_one, Nat.mod_mod, Nat.mod_eq_of_lt hy]

theorem foldl_mix_ne (w : IdType) (l : List Int) (h1 h2 : Nat)
    (hh1 : h1 < 2 ^ (fnv1a_traits.of w).bits) (hh2 : h2 < 2 ^ (fnv1a_traits.of w).bits)
    (hne : h1 ≠ h2) :
    l.foldl (mix (fnv1a_traits.of w)) h1 ≠ l.foldl (mix (fnv1a_traits.of w)) h2 := by
  induction l generalizing h1 h2 with
  | nil => simpa using hne
  | cons c rest ih =>
    exact ih _ _ (mix_lt _ h1 c) (mix_lt _ h2 c)
      (fun heq => hne (mix_inj_state w c h1 h2 hh1 hh2 heq))

theorem to_hash_type_inj (w : IdType) (T : CharType) (c d : Int)
    (hT : T.bits ≤ (fnv1a_traits.of w).bits) (hc : T.holds c) (hd : T.holds d)
    (heq : to_hash_type (fnv1a_traits.of w) c = to_hash_type (fnv1a_traits.of w) d) :
    c = d := by
  have hpos : (0 : Int) < (2 : Int) ^ (fnv1a_traits.of w).bits := by positivity
  have hmod : c % (2 : Int) ^ (fnv1a_traits.of w).bits
      = d % (2 : Int) ^ (fnv1a_traits.of w).bits := by
    have h1 := Int.toNat_of_nonneg (Int.emod_nonneg c (ne_of_gt hpos))
    have h2 := Int.toNat_of_nonneg (Int.emod_nonneg d (ne_of_gt hpos))
    simp only [to_hash_type] at heq
    rw [← h1, ← h2, heq]
  have hdvd : (2 : Int) ^ (fnv1a_traits.of w).bits ∣ c - d :=
    Int.ModEq.dvd (show d ≡ c [ZMOD (2 : Int) ^ (fnv1a_traits.of w).bits] from hmod.symm)
  have hwide : (2 : Int) ^ T.bits ≤ (2 : Int) ^ (fnv1a_traits.of w).bits :=
    pow_le_pow_right₀ (by norm_num) hT
  have hhalf : 2 * (2 : Int) ^ (T.bits - 1) ≤ (2 : Int) ^ (fnv1a_traits.of w).bits := by
    have h1 : T.bits - 1 + 1 ≤ (fnv1a_traits.of w).bits := by
      have : 1 ≤ (fnv1a_traits.of w).bits := by cases w <;> decide
      omega
    have h2 : (2 : Int) ^ (T.bits - 1 + 1) ≤ (2 : Int) ^ (fnv1a_traits.of w).bits :=
      pow_le_pow_right₀ (by norm_num) h1
    rw [pow_succ] at h2
    linarith
  have habs : |c - d| < (2 : Int) ^ (fnv1a_traits.of w).bits := by
    rw [abs_lt]
    unfold CharType.holds at hc hd
    by_cases hsig : T.signed = true
    · simp only [hsig, if_true] at hc hd
      constructor <;> linarith [hc.1, hc.2, hd.1, hd.2]
    · simp only [hsig, Bool.false_eq_true, if_false] at hc hd
      constructor <;> linarith [hc.1, hc.2, hd.1, hd.2]
  have hzero : c - d = 0 := Int.eq_zero_of_abs_lt_dvd hdvd habs
  linarith

/-! ## The hash function -/

/-- C1: for both widths, with the constants of the traits table, the
explicit-length hash of the first `n` characters readable from a pointer into a
buffer is the left fold, from `offset`, of the step
`h -> ((h XOR ext c) * prime) mod 2^W` over exactly those `n` characters. -/
theorem value_sized_eq_foldl (buf : List Int) (pos n : Nat) (hn : pos + n ≤ buf.length) :
    basic_hashed_string.value_sized (fnv1a_traits.of .u32) (Ptr.elem buf pos) n
        = some (List.foldl
            (fun h c => ((h ^^^ (c % (2 : Int) ^ 32).toNat) * 16777619) % 2 ^ 32)
            2166136261 ((buf.drop pos).take n))
    ∧ basic_hashed_string.value_sized (fnv1a_traits.of .u64) (Ptr.elem buf pos) n
        = some (List.foldl
            (fun h c => ((h ^^^ (c % (2 : Int) ^ 64).toNat) * 1099511628211) % 2 ^ 64)
            14695981039346656037 ((buf.drop pos).take n)) := by
  have hlen : n ≤ (Ptr.elem buf pos).cells.length := by
    simp only [Ptr.cells, List.length_drop]
    omega
  constructor
  · simp only [basic_hashed_string.value_sized, helper_sized_eq, hlen, if_true, Option.map_some']
    rfl
  · simp only [basic_hashed_string.value_sized, helper_sized_eq, hlen, if_true, Option.map_some']
    rfl

/-- Witness for C1: the first two characters of `"my.png"`. -/
theorem value_sized_eq_foldl_witness :
    0 + 2 ≤ [(109 : Int), 121, 46, 112, 110, 103, 0].length
    ∧ basic_hashed_string.value_sized (fnv1a_traits.of .u32)
        (Ptr.elem [109, 121, 46, 112, 110, 103, 0] 0) 2
        = some (List.foldl
            (fun h c => ((h ^^^ (c % (2 : Int) ^ 32).toNat) * 16777619) % 2 ^ 32)
            2166136261 ((List.drop 0 [(109 : Int), 121, 46, 112, 110, 103, 0]).take 2)) :=
  ⟨by decide, (value_sized_eq_foldl [109, 121, 46, 112, 110, 103, 0] 0 2 (by decide)).1⟩


/-! ## Constructors and accessors -/

/-- C2: an identifier produced by the pointer-and-length constructor, by the
array constructor or by the wrapped-pointer constructor has `data()` equal to
the pointer passed in, and `value()` equal to the FNV-1a digest of exactly the
first `size()` characters at `data()`.  The first constructor produces an
identifier exactly when `n` characters are readable, the second always, the
third exactly when a zero character is readable. -/
theorem ctor_data_value (w : IdType) (ptr : Ptr) (n : Nat) (arr : List Int)
    (hs : basic_hashed_string) :
    (basic_hashed_string.ctor_sized (fnv1a_traits.of w) ptr n = some hs →
        hs.data = ptr ∧ hs.size ≤ hs.data.cells.length ∧
        hs.value = fnv1a_digest (fnv1a_traits.of w) (hs.data.cells.take hs.size))
    ∧ (basic_hashed_string.ctor_array (fnv1a_traits.of w) arr = some hs →
        hs.data = Ptr.elem arr 0 ∧ hs.size ≤ hs.data.cells.length ∧
        hs.value = fnv1a_digest (fnv1a_traits.of w) (hs.data.cells.take hs.size))
    ∧ (basic_hashed_string.ctor_wrapper (fnv1a_traits.of w) ptr = some hs →
        hs.data = ptr ∧ hs.size ≤ hs.data.cells.length ∧
        hs.value = fnv1a_digest (fnv1a_traits.of w) (hs.data.cells.take hs.size))
    ∧ ((basic_hashed_string.ctor_sized (fnv1a_traits.of w) ptr n).isSome = true
        ↔ n ≤ ptr.cells.length)
    ∧ (basic_hashed_string.ctor_array (fnv1a_traits.of w) arr).isSome = true
    ∧ ((basic_hashed_string.ctor_wrapper (fnv1a_traits.of w) ptr).isSome = true
        ↔ (0 : Int) ∈ ptr.cells) := by
  refine ⟨?_, ?_, ?_, ?_, ?_, ?_⟩
  · intro h
    simp only [basic_hashed_string.ctor_sized, helper_sized_eq] at h
    by_cases hn : n ≤ ptr.cells.length
    · simp only [hn, if_true, Option.map_some', Option.some.injEq] at h
      subst h
      exact ⟨rfl, hn, rfl⟩
    · simp [hn] at h
  · intro h
    have hn : arr.length - 1 ≤ (Ptr.elem arr 0).cells.length := by
      simp [Ptr.cells]
    simp only [basic_hashed_string.ctor_array, helper_sized_eq, hn, if_true, Option.map_some',
      Option.some.injEq] at h
    subst h
    exact ⟨rfl, hn, rfl⟩
  · intro h
    simp only [basic_hashed_string.ctor_wrapper, helper_eq] at h
    by_cases hz : (0 : Int) ∈ ptr.cells
    · simp only [hz, if_true, Option.map_some', Option.some.injEq] at h
      subst h
      refine ⟨rfl, takeWhile_length_le ptr.cells, ?_⟩
      exact congrArg (fnv1a_digest (fnv1a_traits.of w)) (takeWhile_eq_take_length ptr.cells)
    · simp [hz] at h
  · simp only [basic_hashed_string.ctor_sized, helper_sized_eq]
    by_cases hn : n ≤ ptr.cells.length <;> simp [hn]
  · have hn : arr.length - 1 ≤ (Ptr.elem arr 0).cells.length := by
      simp [Ptr.cells]
    simp [basic_hashed_string.ctor_array, helper_sized_eq, hn]
  · simp only [basic_hashed_string.ctor_wrapper, helper_eq]
    by_cases hz : (0 : Int) ∈ ptr.cells <;> simp [hz]

/-- Witness for C2: the three constructors applied to the array `"my"`. -/
theorem ctor_data_value_witness :
    basic_hashed_string.ctor_sized (fnv1a_traits.of .u32) (Ptr.elem [109, 121, 0] 0) 2
        = some { str := Ptr.elem [109, 121, 0] 0, hash := 1278082707, len := 2 }
    ∧ basic_hashed_string.ctor_array (fnv1a_traits.of .u32) [109, 121, 0]
        = some { str := Ptr.elem [109, 121, 0] 0, hash := 1278082707, len := 2 }
    ∧ basic_hashed_string.ctor_wrapper (fnv1a_traits.of .u32) (Ptr.elem [109, 121, 0] 0)
        = some { str := Ptr.elem [109, 121, 0] 0, hash := 1278082707, len := 2 }
    ∧ (1278082707 : Nat) = fnv1a_digest (fnv1a_traits.of .u32) [109, 121] :=
  have h := ctor_data_value .u32 (Ptr.elem [109, 121, 0] 0) 2 [109, 121, 0]
    { str := Ptr.elem [109, 121, 0] 0, hash := 1278082707, len := 2 }
  ⟨by decide, by decide, by decide, (h.1 (by decide)).2.2⟩

/-- C3: for a null-free sequence `s` stored in a buffer and followed by a zero
terminator, the explicit-length hash over `|s|` characters and the
null-terminated scan return the same number, the digest of `s`. -/
theorem value_sized_eq_value_wrapper (w : IdType) (pre s rest : List Int)
    (hs : ∀ c ∈ s, c ≠ 0) :
    basic_hashed_string.value_sized (fnv1a_traits.of w)
        (Ptr.elem (pre ++ (s ++ 0 :: rest)) pre.length) s.length
      = basic_hashed_string.value_wrapper (fnv1a_traits.of w)
        (Ptr.elem (pre ++ (s ++ 0 :: rest)) pre.length)
    ∧ basic_hashed_string.value_wrapper (fnv1a_traits.of w)
        (Ptr.elem (pre ++ (s ++ 0 :: rest)) pre.length)
      = some (fnv1a_digest (fnv1a_traits.of w) s) := by
  have hw : basic_hashed_string.value_wrapper (fnv1a_traits.of w)
        (Ptr.elem (pre ++ (s ++ 0 :: rest)) pre.length)
      = some (fnv1a_digest (fnv1a_traits.of w) s) := by
    simp only [basic_hashed_string.value_wrapper, helper_eq, cells_elem_append,
      takeWhile_nonzero_append s rest hs]
    simp
  refine ⟨?_, hw⟩
  rw [hw]
  simp only [basic_hashed_string.value_sized, helper_sized_eq, cells_elem_append]
  simp

/-- Witness for C3: the sequence `"ab"` inside the buffer `"xab\0cd"`. -/
theorem value_sized_eq_value_wrapper_witness :
    (∀ c ∈ [(97 : Int), 98], c ≠ 0)
    ∧ basic_hashed_string.value_sized (fnv1a_traits.of .u32)
        (Ptr.elem ([120] ++ ([97, 98] ++ 0 :: [99, 100])) [(120 : Int)].length)
        [(97 : Int), 98].length
      = basic_hashed_string.value_wrapper (fnv1a_traits.of .u32)
        (Ptr.elem ([120] ++ ([97, 98] ++ 0 :: [99, 100])) [(120 : Int)].length) :=
  ⟨by decide, (value_sized_eq_value_wrapper .u32 [120] [97, 98] [99, 100] (by decide)).1⟩

/-- C4, as the code has it: a default-constructed identifier has `size() == 0`,
a null `data()` pointer and `value() == 0`, the value-initialised `hash{}`, and
two default-constructed identifiers compare equal under `==`. -/
theorem ctor_default_members :
    basic_hashed_string.ctor_default.size = 0
    ∧ basic_hashed_string.ctor_default.value = 0
    ∧ basic_hashed_string.ctor_default.data = Ptr.null
    ∧ op_eq basic_hashed_string.ctor_default basic_hashed_string.ctor_default = true := by
  decide

/-- C4, as stated, fails: for neither width is the `value()` of a
default-constructed identifier the offset basis. -/
theorem ctor_default_value_ne_offset :
    ¬ (basic_hashed_string.ctor_default.size = 0
        ∧ basic_hashed_string.ctor_default.value = (fnv1a_traits.of .u32).offset
        ∧ basic_hashed_string.ctor_default.data = Ptr.null
        ∧ op_eq basic_hashed_string.ctor_default basic_hashed_string.ctor_default = true)
    ∧ ¬ (basic_hashed_string.ctor_default.size = 0
        ∧ basic_hashed_string.ctor_default.value = (fnv1a_traits.of .u64).offset
        ∧ basic_hashed_string.ctor_default.data = Ptr.null
        ∧ op_eq basic_hashed_string.ctor_default basic_hashed_string.ctor_default = true) := by
  decide

/-- C5: a zero-length input hashes to `offset` in every input form (the array
holding only the terminator, any pointer with length 0, the scan of a buffer
whose first character read is zero), and the identifiers constructed from these
inputs have `size() == 0`. -/
theorem value_of_empty (w : IdType) (p : Ptr) (pre rest : List Int) :
    basic_hashed_string.value_array (fnv1a_traits.of w) [0] = some (fnv1a_traits.of w).offset
    ∧ basic_hashed_string.value_sized (fnv1a_traits.of w) p 0 = some (fnv1a_traits.of w).offset
    ∧ basic_hashed_string.value_wrapper (fnv1a_traits.of w)
        (Ptr.elem (pre ++ 0 :: rest) pre.length) = some (fnv1a_traits.of w).offset
    ∧ (basic_hashed_string.ctor_array (fnv1a_traits.of w) [0]).map basic_hashed_string.size
        = some 0
    ∧ (basic_hashed_string.ctor_sized (fnv1a_traits.of w) p 0).map basic_hashed_string.size
        = some 0
    ∧ (basic_hashed_string.ctor_wrapper (fnv1a_traits.of w)
        (Ptr.elem (pre ++ 0 :: rest) pre.length)).map basic_hashed_string.size = some 0 := by
  have hcells := cells_elem_append pre (0 :: rest)
  refine ⟨?_, ?_, ?_, ?_, ?_, ?_⟩
  · simp [basic_hashed_string.value_array, helper_sized, helper_sized_loop]
  · simp [basic_hashed_string.value_sized, helper_sized, helper_sized_loop]
  · simp [basic_hashed_string.value_wrapper, helper, hcells, helper_loop]
  · simp [basic_hashed_string.ctor_array, helper_sized, helper_sized_loop,
      basic_hashed_string.ctor_result, basic_hashed_string.size]
  · simp [basic_hashed_string.ctor_sized, helper_sized, helper_sized_loop,
      basic_hashed_string.ctor_result, basic_hashed_string.size]
  · simp [basic_hashed_string.ctor_wrapper, helper, hcells, helper_loop,
      basic_hashed_string.ctor_result, basic_hashed_string.size]

/-- C6: hashing the one-character sequence `"a"` (0x61) gives
`(offset XOR 0x61) * prime` modulo `2^W`, which is 0xE40C292C = 3826002220 for
the 32-bit width and 0xAF63DC4C8601EC8C for the 64-bit width, in all three
input forms. -/
theorem value_of_a :
    basic_hashed_string.value_sized (fnv1a_traits.of .u32) (Ptr.elem [0x61, 0] 0) 1
        = some 0xE40C292C
    ∧ basic_hashed_string.value_array (fnv1a_traits.of .u32) [0x61, 0] = some 0xE40C292C
    ∧ basic_hashed_string.value_wrapper (fnv1a_traits.of .u32) (Ptr.elem [0x61, 0] 0)
        = some 0xE40C292C
    ∧ ((2166136261 ^^^ 0x61) * 16777619) % 2 ^ 32 = 0xE40C292C
    ∧ (0xE40C292C : Nat) = 3826002220
    ∧ basic_hashed_string.value_sized (fnv1a_traits.of .u64) (Ptr.elem [0x61, 0] 0) 1
        = some 0xAF63DC4C8601EC8C
    ∧ basic_hashed_string.value_array (fnv1a_traits.of .u64) [0x61, 0]
        = some 0xAF63DC4C8601EC8C
    ∧ basic_hashed_string.value_wrapper (fnv1a_traits.of .u64) (Ptr.elem [0x61, 0] 0)
        = some 0xAF63DC4C8601EC8C
    ∧ ((14695981039346656037 ^^^ 0x61) * 1099511628211) % 2 ^ 64 = 0xAF63DC4C8601EC8C := by
  refine ⟨?_, ?_, ?_, ?_, ?_, ?_, ?_, ?_, ?_⟩ <;> rfl

/-- C7: on the buffer `'a','b',0,'c','d'` the explicit-length hash over 5
characters is the digest of all five, the embedded zero taking one
multiply-by-prime round like any other character, and it differs from the hash
over the first 2 characters. -/
theorem value_with_embedded_zero (w : IdType) :
    basic_hashed_string.value_sized (fnv1a_traits.of w) (Ptr.elem [97, 98, 0, 99, 100] 0) 5
        = some (fnv1a_digest (fnv1a_traits.of w) [97, 98, 0, 99, 100])
    ∧ basic_hashed_string.value_sized (fnv1a_traits.of w) (Ptr.elem [97, 98, 0, 99, 100] 0) 2
        = some (fnv1a_digest (fnv1a_traits.of w) [97, 98])
    ∧ fnv1a_digest (fnv1a_traits.of w) [97, 98, 0]
        = (fnv1a_digest (fnv1a_traits.of w) [97, 98] * (fnv1a_traits.of w).prime)
            % 2 ^ (fnv1a_traits.of w).bits
    ∧ fnv1a_digest (fnv1a_traits.of w) [97, 98, 0] ≠ fnv1a_digest (fnv1a_traits.of w) [97, 98]
    ∧ basic_hashed_string.value_sized (fnv1a_traits.of w) (Ptr.elem [97, 98, 0, 99, 100] 0) 5
        ≠ basic_hashed_string.value_sized (fnv1a_traits.of w)
            (Ptr.elem [97, 98, 0, 99, 100] 0) 2 := by
  cases w <;> decide

/-! ## Relational operators -/

/-- C8: `a == b` holds exactly when `a.value() == b.value()`, for identifiers
with any `data()` and `size()`, and `a != b` is the negation of `a == b`. -/
theorem op_eq_iff_value_eq (a b : basic_hashed_string) :
    (op_eq a b = true ↔ a.value = b.value) ∧ op_ne a b = !(op_eq a b) := by
  simp [op_eq, op_ne]

/-- C9: of `a < b`, `a == b`, `b < a` exactly one holds; `<` is irreflexive and
transitive, and `==` is compatible with `<` on both sides. -/
theorem op_lt_strict_total (a b c : basic_hashed_string) :
    ((op_lt a b = true ∧ op_eq a b = false ∧ op_lt b a = false)
      ∨ (op_lt a b = false ∧ op_eq a b = true ∧ op_lt b a = false)
      ∨ (op_lt a b = false ∧ op_eq a b = false ∧ op_lt b a = true))
    ∧ op_lt a a = false
    ∧ (op_lt a b = true → op_lt b c = true → op_lt a c = true)
    ∧ (op_eq a b = true → op_lt a c = op_lt b c ∧ op_lt c a = op_lt c b) := by
  refine ⟨?_, ?_, ?_, ?_⟩
  · simp only [op_lt, op_eq, decide_eq_true_eq, decide_eq_false_iff_not, beq_iff_eq,
      beq_eq_false_iff_ne, ne_eq]
    omega
  · simp [op_lt]
  · simp only [op_lt, decide_eq_true_eq]
    omega
  · simp only [op_eq, beq_iff_eq, op_lt]
    intro h
    rw [h]
    exact ⟨rfl, rfl⟩

/-- Witness for C9: three identifiers with hashes 1, 2 and 3. -/
theorem op_lt_strict_total_witness :
    op_lt { hash := 1 } { hash := 2 } = true ∧ op_lt { hash := 2 } { hash := 3 } = true
    ∧ op_lt { hash := 1 } { hash := 3 } = true :=
  ⟨by decide, by decide,
    (op_lt_strict_total { hash := 1 } { hash := 2 } { hash := 3 }).2.2.1 (by decide) (by decide)⟩

/-- C10: `a < b` is `a.value() < b.value()` on unsigned integers; `a <= b` is
`!(b < a)`, `a > b` is `b < a`, `a >= b` is `!(a < b)`; hence `a <= b` iff
`a < b` or `a == b`, and `a >= b` iff `a > b` or `a == b`. -/
theorem op_order_identities (a b : basic_hashed_string) :
    (op_lt a b = true ↔ a.value < b.value)
    ∧ (op_le a b = true ↔ ¬ op_lt b a = true)
    ∧ (op_gt a b = true ↔ op_lt b a = true)
    ∧ (op_ge a b = true ↔ ¬ op_lt a b = true)
    ∧ (op_le a b = true ↔ (op_lt a b = true ∨ op_eq a b = true))
    ∧ (op_ge a b = true ↔ (op_gt a b = true ∨ op_eq a b = true)) := by
  refine ⟨?_, ?_, ?_, ?_, ?_, ?_⟩
  · simp [op_lt]
  · simp [op_le]
  · simp [op_gt]
  · simp [op_ge]
  · simp only [op_le, op_lt, op_eq, Bool.not_eq_true', decide_eq_false_iff_not,
      decide_eq_true_eq, beq_iff_eq]
    omega
  · simp only [op_ge, op_gt, op_lt, op_eq, Bool.not_eq_true', decide_eq_false_iff_not,
      decide_eq_true_eq, beq_iff_eq]
    omega

/-! ## Input forms and literal operators -/

/-- C11: for a buffer `s` and `n ≤ |s|`, the identifier constructed from
`(s, n)` and the identifier of the `_hs` literal made of the first `n`
characters of `s` both exist, compare `==`, and have the same `value()` and
`size()`. -/
theorem ctor_sized_eq_literal (w : IdType) (s : List Int) (n : Nat) (hn : n ≤ s.length) :
    ∃ a b : basic_hashed_string,
      basic_hashed_string.ctor_sized (fnv1a_traits.of w) (Ptr.elem s 0) n = some a
      ∧ user_defined_literal (literals.op_hs (fnv1a_traits.of w)) (s.take n) = some b
      ∧ op_eq a b = true ∧ a.value = b.value ∧ a.size = b.size := by
  have hlen : (s.take n).length = n := by
    rw [List.length_take]
    exact Nat.min_eq_left hn
  have hb := helper_sized_append (fnv1a_traits.of w) [] (s.take n) [0]
  simp only [List.nil_append, List.length_nil] at hb
  refine ⟨basic_hashed_string.ctor_result (Ptr.elem s 0)
      { hash := fnv1a_digest (fnv1a_traits.of w) (s.take n), size := n },
    basic_hashed_string.ctor_result (Ptr.elem (s.take n ++ [0]) 0)
      { hash := fnv1a_digest (fnv1a_traits.of w) (s.take n), size := (s.take n).length },
    ?_, ?_, ?_, rfl, ?_⟩
  · simp [basic_hashed_string.ctor_sized, helper_sized_eq, cells_elem_zero, hn]
  · simp only [user_defined_literal, literals.op_hs, basic_hashed_string.ctor_sized,
      string_literal, hb, Option.map_some']
  · simp [op_eq, basic_hashed_string.value, basic_hashed_string.ctor_result]
  · simp [basic_hashed_string.size, basic_hashed_string.ctor_result, hlen]

/-- Witness for C11: the documented `hashed_string{"my.png", 2} == "my"_hs`. -/
theorem ctor_sized_eq_literal_witness :
    2 ≤ [(109 : Int), 121, 46, 112, 110, 103, 0].length
    ∧ ∃ a b : basic_hashed_string,
      basic_hashed_string.ctor_sized (fnv1a_traits.of .u32)
          (Ptr.elem [109, 121, 46, 112, 110, 103, 0] 0) 2 = some a
      ∧ user_defined_literal (literals.op_hs (fnv1a_traits.of .u32)) [109, 121] = some b
      ∧ op_eq a b = true ∧ a.value = b.value ∧ a.size = b.size :=
  ⟨by decide, ctor_sized_eq_literal .u32 [109, 121, 46, 112, 110, 103, 0] 2 (by decide)⟩

/-- C12: for an array of `N ≥ 1` elements, written as `body` followed by one
last element, the array form of the static `value` and the array constructor
hash exactly `body`, and the constructor sets `size()` to `N - 1`, whatever the
last element is; a zero element inside `body` takes a round like any other. -/
theorem array_hashes_all_but_last (w : IdType) (body : List Int) (last : Int) :
    basic_hashed_string.value_array (fnv1a_traits.of w) (body ++ [last])
        = some (fnv1a_digest (fnv1a_traits.of w) body)
    ∧ basic_hashed_string.ctor_array (fnv1a_traits.of w) (body ++ [last])
        = some { str := Ptr.elem (body ++ [last]) 0,
                 hash := fnv1a_digest (fnv1a_traits.of w) body,
                 len := (body ++ [last]).length - 1 }
    ∧ (body ++ [last]).length - 1 = body.length
    ∧ basic_hashed_string.value_array (fnv1a_traits.of w) (body ++ [0] ++ [last])
        = some (mix (fnv1a_traits.of w) (fnv1a_digest (fnv1a_traits.of w) body) 0) := by
  have hlen : ∀ l : List Int, (l ++ [last]).length - 1 = l.length := by
    intro l
    simp
  have hb := helper_sized_append (fnv1a_traits.of w) [] body [last]
  have hz := helper_sized_append (fnv1a_traits.of w) [] (body ++ [0]) [last]
  simp only [List.nil_append, List.length_nil] at hb hz
  refine ⟨?_, ?_, hlen body, ?_⟩
  · simp only [basic_hashed_string.value_array, hlen, hb, Option.map_some']
  · simp only [basic_hashed_string.ctor_array, hlen, hb, Option.map_some',
      basic_hashed_string.ctor_result]
  · simp only [basic_hashed_string.value_array, hlen, hz, Option.map_some']
    simp [fnv1a_digest_eq_foldl, List.foldl_append]

/-- C13: when a zero is readable from the pointer, the null-terminated scan
returns; it consumes exactly the characters `s` before the first zero, so the
identifier of the wrapped-pointer constructor has `size()` equal to the index
of the first zero and `value()` equal to the digest of `s`, and what follows the
first zero has no influence. -/
theorem scan_stops_at_first_zero (w : IdType) (ptr : Ptr) (hz : (0 : Int) ∈ ptr.cells) :
    ∃ s rest : List Int,
      ptr.cells = s ++ 0 :: rest ∧ (∀ c ∈ s, c ≠ 0)
      ∧ helper (fnv1a_traits.of w) ptr
          = some { hash := fnv1a_digest (fnv1a_traits.of w) s, size := s.length }
      ∧ basic_hashed_string.ctor_wrapper (fnv1a_traits.of w) ptr
          = some { str := ptr, hash := fnv1a_digest (fnv1a_traits.of w) s, len := s.length }
      ∧ ∀ (ptr2 : Ptr) (rest2 : List Int), ptr2.cells = s ++ 0 :: rest2 →
          basic_hashed_string.value_wrapper (fnv1a_traits.of w) ptr2
            = basic_hashed_string.value_wrapper (fnv1a_traits.of w) ptr
          ∧ (basic_hashed_string.ctor_wrapper (fnv1a_traits.of w) ptr2).map
              basic_hashed_string.size
            = (basic_hashed_string.ctor_wrapper (fnv1a_traits.of w) ptr).map
              basic_hashed_string.size := by
  obtain ⟨s, rest, hcells, hnot⟩ := List.eq_append_cons_of_mem hz
  have hs : ∀ c ∈ s, c ≠ 0 := fun c hc h0 => hnot (h0 ▸ hc)
  have h1 := helper_of_cells (fnv1a_traits.of w) ptr s rest hcells hs
  refine ⟨s, rest, hcells, hs, h1, ?_, ?_⟩
  · simp only [basic_hashed_string.ctor_wrapper, h1, Option.map_some',
      basic_hashed_string.ctor_result]
  · intro ptr2 rest2 h2
    have h3 := helper_of_cells (fnv1a_traits.of w) ptr2 s rest2 h2 hs
    simp only [basic_hashed_string.value_wrapper, basic_hashed_string.ctor_wrapper, h1, h3,
      Option.map_some', basic_hashed_string.ctor_result, basic_hashed_string.size]
    exact ⟨trivial, trivial⟩

/-- Witness for C13: the scan of the buffer `"ab\0cd"`. -/
theorem scan_stops_at_first_zero_witness :
    (0 : Int) ∈ (Ptr.elem [97, 98, 0, 99, 100] 0).cells
    ∧ ∃ s rest : List Int,
      (Ptr.elem [97, 98, 0, 99, 100] 0).cells = s ++ 0 :: rest ∧ (∀ c ∈ s, c ≠ 0)
      ∧ helper (fnv1a_traits.of .u32) (Ptr.elem [97, 98, 0, 99, 100] 0)
          = some { hash := fnv1a_digest (fnv1a_traits.of .u32) s, size := s.length } :=
  have h := scan_stops_at_first_zero .u32 (Ptr.elem [97, 98, 0, 99, 100] 0) (by decide)
  ⟨by decide, h.elim fun s hs => hs.elim fun rest hr => ⟨s, rest, hr.1, hr.2.1, hr.2.2.1⟩⟩

/-- C14: in each of the three input forms the static `value(...)` returns the
`value()` of the identifier constructed from the same input (and is defined on
the same inputs), and the conversion of an identifier to `hash_type` returns
`value()`. -/
theorem static_value_eq_ctor_value (w : IdType) (ptr : Ptr) (n : Nat) (arr : List Int)
    (hs : basic_hashed_string) :
    basic_hashed_string.value_sized (fnv1a_traits.of w) ptr n
        = (basic_hashed_string.ctor_sized (fnv1a_traits.of w) ptr n).map
            basic_hashed_string.value
    ∧ basic_hashed_string.value_array (fnv1a_traits.of w) arr
        = (basic_hashed_string.ctor_array (fnv1a_traits.of w) arr).map
            basic_hashed_string.value
    ∧ basic_hashed_string.value_wrapper (fnv1a_traits.of w) ptr
        = (basic_hashed_string.ctor_wrapper (fnv1a_traits.of w) ptr).map
            basic_hashed_string.value
    ∧ hs.operator_hash_type = hs.value
    ∧ ((basic_hashed_string.value_sized (fnv1a_traits.of w) ptr n).isSome = true
        ↔ n ≤ ptr.cells.length)
    ∧ (basic_hashed_string.value_array (fnv1a_traits.of w) arr).isSome = true
    ∧ ((basic_hashed_string.value_wrapper (fnv1a_traits.of w) ptr).isSome = true
        ↔ (0 : Int) ∈ ptr.cells) := by
  refine ⟨?_, ?_, ?_, rfl, ?_, ?_, ?_⟩
  · simp only [basic_hashed_string.value_sized, basic_hashed_string.ctor_sized, Option.map_map]
    rfl
  · simp only [basic_hashed_string.value_array, basic_hashed_string.ctor_array, Option.map_map]
    rfl
  · simp only [basic_hashed_string.value_wrapper, basic_hashed_string.ctor_wrapper,
      Option.map_map]
    rfl
  · simp only [basic_hashed_string.value_sized, helper_sized_eq]
    by_cases hn : n ≤ ptr.cells.length <;> simp [hn]
  · have hn : arr.length - 1 ≤ (Ptr.elem arr 0).cells.length := by
      simp [Ptr.cells]
    simp [basic_hashed_string.value_array, helper_sized_eq, hn]
  · simp only [basic_hashed_string.value_wrapper, helper_eq]
    by_cases hz : (0 : Int) ∈ ptr.cells <;> simp [hz]

/-- C15: for a string literal with any characters, embedded zeros included,
each of the literal operators `_hs` (narrow), `_hs` (wide) and `_hws` returns
the identifier that the array constructor builds from the array of the literal:
same `data()`, `value()` and `size()`. -/
theorem literal_eq_ctor_array (w : IdType) (chars : List Int) :
    user_defined_literal (literals.op_hs (fnv1a_traits.of w)) chars
        = basic_hashed_string.ctor_array (fnv1a_traits.of w) (string_literal chars)
    ∧ user_defined_literal (literals.op_hs_wide (fnv1a_traits.of w)) chars
        = basic_hashed_string.ctor_array (fnv1a_traits.of w) (string_literal chars)
    ∧ user_defined_literal (literals.op_hws (fnv1a_traits.of w)) chars
        = basic_hashed_string.ctor_array (fnv1a_traits.of w) (string_literal chars)
    ∧ basic_hashed_string.ctor_array (fnv1a_traits.of w) (string_literal chars)
        = some { str := Ptr.elem (string_literal chars) 0,
                 hash := fnv1a_digest (fnv1a_traits.of w) chars,
                 len := chars.length } := by
  have hlen : (string_literal chars).length - 1 = chars.length := by
    simp [string_literal]
  have hb := helper_sized_append (fnv1a_traits.of w) [] chars [0]
  simp only [List.nil_append, List.length_nil] at hb
  refine ⟨?_, ?_, ?_, ?_⟩
  · simp only [user_defined_literal, literals.op_hs, basic_hashed_string.ctor_sized,
      basic_hashed_string.ctor_array, hlen]
  · simp only [user_defined_literal, literals.op_hs_wide, basic_hashed_string.ctor_sized,
      basic_hashed_string.ctor_array, hlen]
  · simp only [user_defined_literal, literals.op_hws, basic_hashed_string.ctor_sized,
      basic_hashed_string.ctor_array, hlen]
  · simp only [basic_hashed_string.ctor_array, hlen]
    simp only [string_literal, hb, Option.map_some', basic_hashed_string.ctor_result]

/-! ## Collisions -/

/-- C16: for the 32-bit width the identifiers of the null-free narrow literals
`"costarring"` and `"liquid"` have the same `value()`, 1582148253, and compare
`==`, although their pointers and the characters they designate differ. -/
theorem collision_costarring_liquid :
    ∃ a b : basic_hashed_string,
      basic_hashed_string.ctor_array (fnv1a_traits.of .u32)
          (string_literal [99, 111, 115, 116, 97, 114, 114, 105, 110, 103]) = some a
      ∧ basic_hashed_string.ctor_array (fnv1a_traits.of .u32)
          (string_literal [108, 105, 113, 117, 105, 100]) = some b
      ∧ a.value = 1582148253 ∧ b.value = 1582148253
      ∧ op_eq a b = true
      ∧ a.data ≠ b.data
      ∧ a.data.cells.take a.size = [99, 111, 115, 116, 97, 114, 114, 105, 110, 103]
      ∧ b.data.cells.take b.size = [108, 105, 113, 117, 105, 100]
      ∧ a.data.cells.take a.size ≠ b.data.cells.take b.size
      ∧ (∀ c ∈ a.data.cells.take a.size, c ≠ 0 ∧ CharType.holds ⟨8, true⟩ c)
      ∧ (∀ c ∈ b.data.cells.take b.size, c ≠ 0 ∧ CharType.holds ⟨8, true⟩ c) :=
  ⟨{ str := Ptr.elem (string_literal [99, 111, 115, 116, 97, 114, 114, 105, 110, 103]) 0,
     hash := 1582148253, len := 10 },
   { str := Ptr.elem (string_literal [108, 105, 113, 117, 105, 100]) 0,
     hash := 1582148253, len := 6 },
   by rfl, by rfl, by rfl, by rfl, by rfl, by decide, by rfl, by rfl, by decide, by decide,
   by decide⟩

/-- C17: for both widths one round is a bijection on hash states for a fixed
character, and is injective in the character for a fixed state when the
characters are values of a character type of at most `W` bits; hence two
sequences of the same length that differ in exactly one position, `a ++ c :: b`
and `a ++ d :: b`, have different explicit-length hashes. -/
theorem single_difference_no_collision (w : IdType) (T : CharType)
    (a b tl1 tl2 : List Int) (c d : Int)
    (hT : T.bits ≤ (fnv1a_traits.of w).bits) (hc : T.holds c) (hd : T.holds d)
    (hcd : c ≠ d) :
    (∀ (x : Int) (h1 h2 : Nat), h1 < 2 ^ (fnv1a_traits.of w).bits →
        h2 < 2 ^ (fnv1a_traits.of w).bits →
        mix (fnv1a_traits.of w) h1 x = mix (fnv1a_traits.of w) h2 x → h1 = h2)
    ∧ (∀ (x : Int) (y : Nat), y < 2 ^ (fnv1a_traits.of w).bits →
        ∃ h, h < 2 ^ (fnv1a_traits.of w).bits ∧ mix (fnv1a_traits.of w) h x = y)
    ∧ (∀ h : Nat, h < 2 ^ (fnv1a_traits.of w).bits →
        mix (fnv1a_traits.of w) h c ≠ mix (fnv1a_traits.of w) h d)
    ∧ ∃ h1 h2 : Nat,
        basic_hashed_string.value_sized (fnv1a_traits.of w)
            (Ptr.elem ((a ++ c :: b) ++ tl1) 0) (a ++ c :: b).length = some h1
        ∧ basic_hashed_string.value_sized (fnv1a_traits.of w)
            (Ptr.elem ((a ++ d :: b) ++ tl2) 0) (a ++ d :: b).length = some h2
        ∧ h1 ≠ h2 := by
  have hstep : ∀ h : Nat, h < 2 ^ (fnv1a_traits.of w).bits →
      mix (fnv1a_traits.of w) h c ≠ mix (fnv1a_traits.of w) h d := by
    intro h hh heq
    exact hcd (to_hash_type_inj w T c d hT hc hd
      (round_inj_operand w h _ _ hh (to_hash_type_lt _ c) (to_hash_type_lt _ d) heq))
  refine ⟨fun x h1 h2 => mix_inj_state w x h1 h2, fun x y => mix_surj_state w x y, hstep, ?_⟩
  have h1 := helper_sized_append (fnv1a_traits.of w) [] (a ++ c :: b) tl1
  have h2 := helper_sized_append (fnv1a_traits.of w) [] (a ++ d :: b) tl2
  simp only [List.nil_append, List.length_nil] at h1 h2
  refine ⟨fnv1a_digest (fnv1a_traits.of w) (a ++ c :: b),
    fnv1a_digest (fnv1a_traits.of w) (a ++ d :: b), ?_, ?_, ?_⟩
  · simp only [basic_hashed_string.value_sized, h1, Option.map_some']
  · simp only [basic_hashed_string.value_sized, h2, Option.map_some']
  · have ha : a.foldl (mix (fnv1a_traits.of w)) (fnv1a_traits.of w).offset
        < 2 ^ (fnv1a_traits.of w).bits :=
      foldl_mix_lt _ a _ (traits_offset_lt w)
    simp only [fnv1a_digest_eq_foldl, List.foldl_append, List.foldl_cons]
    exact foldl_mix_ne w b _ _ (mix_lt _ _ c) (mix_lt _ _ d) (hstep _ ha)

/-- Witness for C17: `"cat"` and `"cut"` as signed narrow characters, 32 bits. -/
theorem single_difference_no_collision_witness :
    (⟨8, true⟩ : CharType).bits ≤ (fnv1a_traits.of .u32).bits
    ∧ CharType.holds ⟨8, true⟩ 97 ∧ CharType.holds ⟨8, true⟩ 117 ∧ (97 : Int) ≠ 117
    ∧ ∃ h1 h2 : Nat,
        basic_hashed_string.value_sized (fnv1a_traits.of .u32)
            (Ptr.elem (([99] ++ 97 :: [116]) ++ [0]) 0) ([99] ++ (97 : Int) :: [116]).length
          = some h1
        ∧ basic_hashed_string.value_sized (fnv1a_traits.of .u32)
            (Ptr.elem (([99] ++ 117 :: [116]) ++ [0]) 0) ([99] ++ (117 : Int) :: [116]).length
          = some h2
        ∧ h1 ≠ h2 :=
  ⟨by decide, by decide, by decide, by decide,
    (single_difference_no_collision .u32 ⟨8, true⟩ [99] [116] [0] [0] 97 117
      (by decide) (by decide) (by decide) (by decide)).2.2.2⟩

/-- C18: with narrow characters as signed 8-bit values, a negative character
`c` is converted to `2^W + c`; the hash of a sequence whose characters all lie
in 0..127 is the standard byte-wise FNV-1a digest of its bytes, while the hash
of a one-character sequence whose character is negative differs from the
standard digest of that byte. -/
theorem signed_narrow_vs_standard (w : IdType) (s tl : List Int) (c : Int) :
    ((∀ x ∈ s, 0 ≤ x ∧ x ≤ 127) →
        basic_hashed_string.value_sized (fnv1a_traits.of w) (Ptr.elem (s ++ tl) 0) s.length
          = some (std_fnv1a (fnv1a_traits.of w) (s.map byte_of)))
    ∧ (-128 ≤ c ∧ c ≤ -1 →
        CharType.holds ⟨8, true⟩ c
        ∧ to_hash_type (fnv1a_traits.of w) c = ((2 : Int) ^ (fnv1a_traits.of w).bits + c).toNat
        ∧ byte_of c = (256 + c).toNat
        ∧ ∃ h : Nat,
            basic_hashed_string.value_sized (fnv1a_traits.of w) (Ptr.elem (c :: tl) 0) 1
              = some h
            ∧ h ≠ std_fnv1a (fnv1a_traits.of w) [byte_of c]) := by
  constructor
  · intro hs
    have hfold : ∀ (l : List Int) (h : Nat), (∀ x ∈ l, 0 ≤ x ∧ x ≤ 127) →
        l.foldl (mix (fnv1a_traits.of w)) h
          = (l.map byte_of).foldl
              (fun h b => ((h ^^^ b) * (fnv1a_traits.of w).prime)
                % 2 ^ (fnv1a_traits.of w).bits) h := by
      intro l
      induction l with
      | nil => intro h _; rfl
      | cons x rest ih =>
        intro h hl
        have hx : 0 ≤ x ∧ x ≤ 127 := hl x (by simp)
        have hconv : to_hash_type (fnv1a_traits.of w) x = byte_of x := by
          cases w <;> simp only [to_hash_type, byte_of, fnv1a_traits.of] <;> omega
        simp only [List.foldl_cons, List.map_cons]
        rw [ih _ (fun y hy => hl y (by simp [hy]))]
        simp only [mix, hconv]
    have h1 := helper_sized_append (fnv1a_traits.of w) [] s tl
    simp only [List.nil_append, List.length_nil] at h1
    simp only [basic_hashed_string.value_sized, h1, Option.map_some', fnv1a_digest_eq_foldl,
      std_fnv1a, hfold s _ hs]
  · intro hc
    have hconv : to_hash_type (fnv1a_traits.of w) c
        = ((2 : Int) ^ (fnv1a_traits.of w).bits + c).toNat := by
      cases w <;> simp only [to_hash_type, fnv1a_traits.of] <;> omega
    have hbyte : byte_of c = (256 + c).toNat := by
      simp only [byte_of]
      omega
    have hne : to_hash_type (fnv1a_traits.of w) c ≠ byte_of c := by
      rw [hconv, hbyte]
      cases w <;> simp only [fnv1a_traits.of] <;> omega
    have hblt : byte_of c < 2 ^ (fnv1a_traits.of w).bits := by
      rw [hbyte]
      cases w <;> simp only [fnv1a_traits.of] <;> omega
    have hholds : CharType.holds ⟨8, true⟩ c := by
      simp only [CharType.holds, if_true]
      omega
    have h1 := helper_sized_append (fnv1a_traits.of w) [] [c] tl
    simp only [List.nil_append, List.length_nil, List.singleton_append, List.length_singleton]
      at h1
    refine ⟨hholds, hconv, hbyte, fnv1a_digest (fnv1a_traits.of w) [c], ?_, ?_⟩
    · simp only [basic_hashed_string.value_sized, h1, Option.map_some']
    · intro heq
      exact hne (round_inj_operand w _ _ _ (traits_offset_lt w) (to_hash_type_lt _ c) hblt heq)

/-- Witness for C18: the sequence `"ab"` and the character with value -1. -/
theorem signed_narrow_vs_standard_witness :
    (∀ x ∈ [(97 : Int), 98], 0 ≤ x ∧ x ≤ 127)
    ∧ basic_hashed_string.value_sized (fnv1a_traits.of .u32) (Ptr.elem ([97, 98] ++ [0]) 0)
        [(97 : Int), 98].length
      = some (std_fnv1a (fnv1a_traits.of .u32) ([(97 : Int), 98].map byte_of))
    ∧ (-128 ≤ (-1 : Int) ∧ (-1 : Int) ≤ -1)
    ∧ ∃ h : Nat,
        basic_hashed_string.value_sized (fnv1a_traits.of .u32) (Ptr.elem (-1 :: [0]) 0) 1
          = some h
        ∧ h ≠ std_fnv1a (fnv1a_traits.of .u32) [byte_of (-1)] :=
  have h := signed_narrow_vs_standard .u32 [97, 98] [0] (-1)
  ⟨by decide, h.1 (by decide), by decide, (h.2 (by decide)).2.2.2⟩

end entt
